import Mathlib

/-!
Shallow embedding of the core of `simple_yolo.cu` (repository Lacacy/tensorRT_Pro,
single source file `src/simple_yolo/src/simple_yolo.cu`), together with theorems
checking the natural-language specification against it.

Conventions used throughout:
* CUDA floats are modelled as exact rationals (`ℚ`); the properties checked here
  are order/arithmetic-structural and are stated over the same expressions the
  kernels compute.
* Device/host byte buffers are modelled as `List Nat` (one entry per byte).
* Logging is modelled by the list of `LogLevel`s emitted; `__log_func` aborts the
  process exactly for `LogLevel.Fatal` (source lines 205-208), so "not fatal"
  means no `Fatal` entry is emitted.
-/

namespace SimpleYolo

/-- Log levels, from the `LogLevel` enum of the source (lines 83-90). -/
inductive LogLevel : Type where
  | Debug | Verbose | Info | Warning | Error | Fatal
deriving DecidableEq, Repr

/-- `__log_func` (source lines 191-209) calls `abort()` exactly when the level is
`Fatal`.  A call is process-terminating iff its level satisfies this predicate. -/
def logAborts (l : LogLevel) : Bool := l = LogLevel.Fatal

/-- The `DataHead` enum of the source (lines 355-359): which side of a `MixMemory`
holds the authoritative copy of a tensor's data. -/
inductive DataHead : Type where
  | Init | Device | Host
deriving DecidableEq, Repr

/-- Model of `MixMemory` (source lines 230-353): a host and a device allocation.
Each buffer is a list of bytes; its length is the allocated size (`cpu_size_` /
`gpu_size_`).  The ownership flags and device ids do not affect the claims
checked here and are omitted. -/
structure MixMemory : Type where
  cpuData : List Nat
  gpuData : List Nat
deriving DecidableEq, Repr

/-- `MixMemory::gpu(size)` (source lines 301-312): grow (reallocate and zero-fill)
only when the current capacity is below `size`; otherwise return the buffer
unchanged. -/
def MixMemory.gpuAlloc (m : MixMemory) (size : Nat) : MixMemory :=
  if m.gpuData.length < size then { m with gpuData := List.replicate size 0 } else m

/-- `MixMemory::cpu(size)` (source lines 314-326), same growth rule on the host side. -/
def MixMemory.cpuAlloc (m : MixMemory) (size : Nat) : MixMemory :=
  if m.cpuData.length < size then { m with cpuData := List.replicate size 0 } else m

/-- Overwrite `dst` starting at byte offset `off` with the bytes of `src`
(the effect of the `cudaMemcpyAsync` calls used by `Tensor`). -/
def writeBytes (dst : List Nat) (off : Nat) (src : List Nat) : List Nat :=
  dst.take off ++ src ++ dst.drop (off + src.length)

/-- Model of `Tensor` (source lines 361-782): shape, row-major byte strides,
byte footprint `bytes_`, authoritative-location tag `head_` and the owned
`MixMemory`.  The stream, device id and the printable shape string do not affect
the claims and are omitted.  Element type is fixed-width float
(`element_size() == 4`, source line 386). -/
structure Tensor : Type where
  shape : List Nat
  strides : List Nat
  bytes : Nat
  head : DataHead
  data : MixMemory
deriving DecidableEq, Repr

/-- `Tensor::element_size()` (source line 386): `sizeof(float)`. -/
def element_size : Nat := 4

/-- `Tensor::numel()` (source lines 653-659): 0 for an empty shape, otherwise the
product of the dimensions. -/
def Tensor.numelOf (shape : List Nat) : Nat :=
  if shape.isEmpty then 0 else shape.foldl (· * ·) 1

/-- Plain product of a dimension list (used by the stride recurrence, which
multiplies suffix dimensions and never sees the empty-shape special case). -/
def listProd : List Nat → Nat
  | [] => 1
  | d :: rest => d * listProd rest

/-- The byte strides computed by `Tensor::resize` (source lines 683-694):
`strides[i] = element_size * prod(shape[i+1..])`, last dimension fastest. -/
def computeStrides : List Nat → List Nat
  | [] => []
  | _ :: rest => element_size * listProd rest :: computeStrides rest

/-- `Tensor::adajust_memory_by_update_dims_or_type` (source lines 701-709):
`needed_size = numel() * element_size(); if (needed_size > bytes_) head_ = Init;
bytes_ = needed_size;`.  The data block itself is untouched. -/
def Tensor.adajust_memory_by_update_dims_or_type (t : Tensor) : Tensor :=
  let needed_size := Tensor.numelOf t.shape * element_size
  { t with
    head := if needed_size > t.bytes then DataHead.Init else t.head
    bytes := needed_size }

/-- `Tensor::resize(ndims, dims)` (source lines 670-699): install the new shape,
recompute strides, then adjust the byte footprint/head tag.  The `dim == -1`
"keep old dimension" branch is never exercised by this program (no caller passes
-1), so dimensions are taken as plain naturals. -/
def Tensor.resize (t : Tensor) (dims : List Nat) : Tensor :=
  Tensor.adajust_memory_by_update_dims_or_type
    { t with shape := dims, strides := computeStrides dims }

/-- The new byte footprint `resize dims` installs (`numel * element_size`). -/
def Tensor.newBytes (dims : List Nat) : Nat := Tensor.numelOf dims * element_size

/-- `Tensor::to_gpu(copy)` (source lines 717-730): no-op when the tag is already
`Device`; otherwise set the tag to `Device`, grow the device side to `bytes_`,
and, when `copy` is set and a host buffer exists, copy `bytes_` bytes host→device. -/
def Tensor.to_gpu (t : Tensor) (copy : Bool) : Tensor :=
  if t.head = DataHead.Device then t
  else
    let m := t.data.gpuAlloc t.bytes
    let m :=
      if copy ∧ ¬ m.cpuData.isEmpty then
        { m with gpuData := writeBytes m.gpuData 0 (m.cpuData.take t.bytes) }
      else m
    { t with head := DataHead.Device, data := m }

/-- `Tensor::copy_from_gpu(offset, src, num_element)` (source lines 588-623).
Returns the resulting tensor together with the list of log levels emitted.
The source first materializes the device side when the tag is `Init`, then
bounds-checks `offset` and `num_element` against `bytes_`, logging an error and
copying nothing on violation; otherwise it enqueues an asynchronous copy of
`num_element * element_size` bytes from `src` at byte offset
`offset * element_size` into the authoritative side.  The device-to-device peer
copy and the plain copy write the same bytes and are not distinguished here. -/
def Tensor.copy_from_gpu (t : Tensor) (offset : Nat) (src : List Nat)
    (num_element : Nat) : Tensor × List LogLevel :=
  let t1 := if t.head = DataHead.Init then t.to_gpu false else t
  let offset_location := offset * element_size
  if offset_location ≥ t1.bytes then (t1, [LogLevel.Error])
  else
    let copyed_bytes := num_element * element_size
    let remain_bytes := t1.bytes - offset_location
    if copyed_bytes > remain_bytes then (t1, [LogLevel.Error])
    else
      match t1.head with
      | DataHead.Device =>
          ({ t1 with data := { t1.data with
              gpuData := writeBytes t1.data.gpuData offset_location (src.take copyed_bytes) } }, [])
      | DataHead.Host =>
          ({ t1 with data := { t1.data with
              cpuData := writeBytes t1.data.cpuData offset_location (src.take copyed_bytes) } }, [])
      | DataHead.Init => (t1, [LogLevel.Error])

/-! ## Decode and NMS kernels (source lines 785-898) -/

/-- `NUM_BOX_ELEMENT` (source line 785): left, top, right, bottom, confidence,
class, keepflag. -/
def NUM_BOX_ELEMENT : Nat := 7

/-- One candidate raw detection, i.e. one row of the network output read by
`decode_kernel` (source lines 796-808): `pitem[0..3]` = cx, cy, width, height,
`pitem[4]` = objectness, `pitem[5..]` = per-class confidences. -/
structure RawPred : Type where
  cx : ℚ
  cy : ℚ
  w : ℚ
  h : ℚ
  obj : ℚ
  cls : List ℚ
deriving DecidableEq, Repr

/-- The linear scan of `decode_kernel` (source lines 801-809): running best
confidence and label, strict `>` updates, classes visited in index order. -/
def bestLoop : List ℚ → ℚ → Nat → Nat → ℚ × Nat
  | [], conf, label, _ => (conf, label)
  | c :: rest, conf, label, i =>
      if c > conf then bestLoop rest c i (i + 1) else bestLoop rest conf label (i + 1)

/-- Best class confidence and its label for one detection: starts from class 0
and scans classes 1..; the source reads `class_confidence[0]` unconditionally
(there is at least one class in any real model; an empty class list yields 0). -/
def bestClass (p : RawPred) : ℚ × Nat :=
  match p.cls with
  | [] => (0, 0)
  | c :: rest => bestLoop rest c 0 1

/-- A 2x3 affine matrix, `invert_affine_matrix` of the kernels. -/
structure AffineM : Type where
  m0 : ℚ
  m1 : ℚ
  m2 : ℚ
  m3 : ℚ
  m4 : ℚ
  m5 : ℚ
deriving DecidableEq, Repr

/-- `affine_project` (source lines 786-789). -/
def affine_project (m : AffineM) (x y : ℚ) : ℚ × ℚ :=
  (m.m0 * x + m.m1 * y + m.m2, m.m3 * x + m.m4 * y + m.m5)

/-- One decoded box as written by `decode_kernel` (source lines 830-837): the
seven floats left, top, right, bottom, confidence, class label, keep-flag. -/
structure DecBox : Type where
  left : ℚ
  top : ℚ
  right : ℚ
  bottom : ℚ
  conf : ℚ
  label : ℚ
  keep : ℚ
deriving DecidableEq, Repr

/-- The all-zero box (used as the out-of-range default when indexing box lists). -/
def zeroBox : DecBox := ⟨0, 0, 0, 0, 0, 0, 0⟩

/-- The box `decode_kernel` writes for a surviving detection (source lines
819-837): center/size converted to corners, both corners mapped through the
inverse affine matrix, keep-flag initially 1. -/
def mkDecBox (p : RawPred) (m : AffineM) (conf : ℚ) (label : Nat) : DecBox :=
  let left := p.cx - p.w * (1/2 : ℚ)
  let top := p.cy - p.h * (1/2 : ℚ)
  let right := p.cx + p.w * (1/2 : ℚ)
  let bottom := p.cy + p.h * (1/2 : ℚ)
  let lt := affine_project m left top
  let rb := affine_project m right bottom
  ⟨lt.1, lt.2, rb.1, rb.2, conf, (label : ℚ), 1⟩

/-- The survival test of `decode_kernel` (source lines 797-813): discarded when
objectness is below the confidence threshold, and again when best class
confidence times objectness is below it. -/
def decodePasses (c : ℚ) (p : RawPred) : Bool :=
  ¬ p.obj < c ∧ ¬ (bestClass p).1 * p.obj < c

/-- One `decode_kernel` thread's effect on the output block (source lines
791-838), given the counter/box-list accumulated so far: a surviving detection
always increments the counter (`atomicAdd`), but its box is written only when
the claimed index is below `max_objects`. -/
def decodeStep (c : ℚ) (m : AffineM) (max_objects : Nat)
    (acc : Nat × List DecBox) (p : RawPred) : Nat × List DecBox :=
  if p.obj < c then acc
  else
    let best := bestClass p
    let conf := best.1 * p.obj
    if conf < c then acc
    else
      (acc.1 + 1,
        if acc.1 < max_objects then acc.2 ++ [mkDecBox p m conf best.2] else acc.2)

/-- `decode_kernel` over a whole image (source lines 791-838): one thread per
candidate; the atomic compaction is linearized in candidate order.  Returns the
final counter value and the compacted box list. -/
def decode_kernel (preds : List RawPred) (c : ℚ) (m : AffineM)
    (max_objects : Nat) : Nat × List DecBox :=
  preds.foldl (decodeStep c m max_objects) (0, [])

/-- `box_iou` (source lines 840-857): clamped rectangle intersection over union,
0 when the intersection area is 0. -/
def box_iou (a b : DecBox) : ℚ :=
  let cleft := max a.left b.left
  let ctop := max a.top b.top
  let cright := min a.right b.right
  let cbottom := min a.bottom b.bottom
  let c_area := max (cright - cleft) 0 * max (cbottom - ctop) 0
  if c_area = 0 then 0
  else
    let a_area := max 0 (a.right - a.left) * max 0 (a.bottom - a.top)
    let b_area := max 0 (b.right - b.left) * max 0 (b.bottom - b.top)
    c_area / (a_area + b_area - c_area)

/-- The suppression test run by the `nms_kernel` thread for box `pos` (source
lines 866-886): some other box `i < count` of the same class, with
`conf_i ≥ conf_pos`, not skipped by the tie rule (`conf_i = conf_pos ∧ i < pos`
is skipped), whose IoU with box `pos` exceeds the threshold. -/
def nmsSuppressed (boxes : List DecBox) (count : Nat) (threshold : ℚ)
    (pos : Nat) : Bool :=
  let cur := boxes.getD pos zeroBox
  (List.range count).any fun i =>
    let item := boxes.getD i zeroBox
    decide (i ≠ pos) && decide (item.label = cur.label) &&
      decide (item.conf ≥ cur.conf) &&
      !(decide (item.conf = cur.conf) && decide (i < pos)) &&
      decide (box_iou cur item > threshold)

/-- `nms_kernel` (source lines 859-887): `count = min((int)*bboxes, max_objects)`
threads are active; thread `pos` clears its own keep-flag (writes 0) exactly when
its suppression test fires; boxes at positions `≥ count` are untouched.  Only
the keep-flag is mutated and no thread reads another box's keep-flag, so the
concurrent kernel computes this function. -/
def nms_kernel (stored : Nat) (boxes : List DecBox) (max_objects : Nat)
    (threshold : ℚ) : List DecBox :=
  let count := min stored max_objects
  (List.range boxes.length).map fun pos =>
    let b := boxes.getD pos zeroBox
    if pos < count && nmsSuppressed boxes count threshold pos then
      { b with keep := 0 }
    else b

/-! ## Worker read-back of decoded boxes (source lines 1841-1856) -/

/-- `MAX_IMAGE_BBOX` (source line 1790): the fixed per-image cap on detections. -/
def MAX_IMAGE_BBOX : Nat := 1024

/-- C cast of a float to `int`: truncation toward zero. -/
def cppFloatToInt (q : ℚ) : ℤ := Int.tdiv q.num (Int.ofNat q.den)

/-- One element of the `BoxArray` output (the `Box` struct of the public header):
left, top, right, bottom, confidence and the integer class label. -/
structure Box : Type where
  left : ℚ
  top : ℚ
  right : ℚ
  bottom : ℚ
  confidence : ℚ
  class_label : ℤ
deriving DecidableEq, Repr

/-- The box the worker emits for one kept entry (source line 1852), with the
float class label cast to `int` (source line 1849). -/
def emitBox (b : DecBox) : Box :=
  ⟨b.left, b.top, b.right, b.bottom, b.conf, cppFloatToInt b.label⟩

/-- The worker's per-image read-back (source lines 1843-1854):
`count = min(MAX_IMAGE_BBOX, (int)*parray)`; entries `0..count` are scanned and
only those whose keep-flag casts to the integer 1 are emitted. -/
def worker_read_image (stored : Nat) (entries : List DecBox) : List Box :=
  let count := min MAX_IMAGE_BBOX stored
  ((entries.take count).filter fun b => cppFloatToInt b.keep = 1).map emitBox

/-! ## MonopolyAllocator (source lines 1431-1525)

State under the pool's single mutex: the per-slot `available_` flags, the
`num_available_` counter, the fixed `capacity_` and the `run_` flag.  The
tensors stored in the slots, the waiting-thread counter and the condition
variables do not affect the counting claims and are omitted; the condition
wait of `query` is modelled by evaluating the post-wait decision (source lines
1485-1495) on the state observed at wake-up, and `release_one`'s
`cv_.notify_one()` is reported as the boolean second component. -/

/-- Pool state: `datas_[i]->available_`, `num_available_`, `capacity_`, `run_`. -/
structure Pool : Type where
  slots : List Bool
  num_available : Nat
  capacity : Nat
  run : Bool
deriving DecidableEq, Repr

/-- The constructor `MonopolyAllocator(size)` (source lines 1450-1457): `size`
slots, all available. -/
def mkMonopolyAllocator (size : Nat) : Pool :=
  ⟨List.replicate size true, size, size, true⟩

/-- `std::find_if` over the slot list for the first available slot (source line
1489). -/
def findAvail : List Bool → Option Nat
  | [] => none
  | a :: rest => if a then some 0 else (findAvail rest).map (· + 1)

/-- `MonopolyAllocator::query` (source lines 1469-1496), evaluated at the state
held under the mutex after any wait: null when stopped, when nothing is
available (timeout/spurious wake with nothing free), or when no slot is found;
on success the found slot is flipped to in-use and the counter decremented. -/
def Pool.query (p : Pool) : Pool × Option Nat :=
  if ¬ p.run then (p, none)
  else if p.num_available = 0 then (p, none)
  else
    match findAvail p.slots with
    | none => (p, none)
    | some i =>
        ({ p with slots := p.slots.set i false, num_available := p.num_available - 1 },
          some i)

/-- `MonopolyAllocator::release_one` (source lines 1507-1514): only a slot that
is currently unavailable is flipped back, the counter incremented and one waiter
notified; otherwise nothing happens.  The boolean reports whether
`cv_.notify_one()` was called.  (`release_one` is only ever handed a real slot of
this pool; an out-of-range index is treated as the no-op branch.) -/
def Pool.release_one (p : Pool) (i : Nat) : Pool × Bool :=
  if p.slots.getD i true then (p, false)
  else ({ p with slots := p.slots.set i true, num_available := p.num_available + 1 }, true)

/-- The destructor's shutdown step (source lines 1459-1461): `run_ = false`. -/
def Pool.shutdown (p : Pool) : Pool := { p with run := false }

/-- Number of slots currently marked available. -/
def countAvail : List Bool → Nat
  | [] => 0
  | a :: rest => (if a then 1 else 0) + countAvail rest

/-- Number of slots currently held by an acquirer (in-use). -/
def Pool.inUse (p : Pool) : Nat := p.slots.length - countAvail p.slots

/-- The states a pool of initial capacity `n` can reach through its mutex-guarded
operations: construction, `query`, `release_one` and shutdown. -/
inductive PoolReachable : Nat → Pool → Prop where
  | init (n : Nat) : PoolReachable n (mkMonopolyAllocator n)
  | query {n : Nat} {p : Pool} : PoolReachable n p → PoolReachable n p.query.1
  | release {n : Nat} {p : Pool} (i : Nat) :
      PoolReachable n p → PoolReachable n (p.release_one i).1
  | shutdown {n : Nat} {p : Pool} : PoolReachable n p → PoolReachable n p.shutdown

/-! ## InferController: the batching dispatcher (source lines 1529-1667)

Jobs are identified by creation index.  For each job we record the list of
values set on its `std::promise` (`set_value` calls, in order): a promise is
correctly used iff that list stays a singleton.  `Output` is `BoxArray`, i.e. a
list of boxes; preprocessing itself (pool acquisition, affine computation, GPU
staging) is summarised by its success bit, which is what `commit`/`commits`
branch on. -/

/-- `Output` = `BoxArray`. -/
def Output : Type := List Box
deriving instance DecidableEq, Repr for Output

/-- The default-constructed `Output()` used for preprocess failure and shutdown. -/
def emptyOutput : Output := ([] : List Box)

/-- Dispatcher state: `run_`, the FIFO `jobs_` queue (job ids), the worker's
current `fetch_jobs` batch, per-job `set_value` histories (index = job id),
whether the worker thread object exists (`worker_`), and how many joins have
been performed. -/
structure Disp : Type where
  run : Bool
  queue : List Nat
  fetched : List Nat
  fulfils : List (List Output)
  workerThread : Bool
  joins : Nat
deriving DecidableEq, Repr

/-- State right after a successful `startup` (source lines 1565-1572): running,
empty queue, live worker thread. -/
def initDisp : Disp := ⟨true, [], [], [], true, 0⟩

/-- `pro->set_value(v)` on job `id`: append `v` to that job's history. -/
def setValue (fs : List (List Output)) (id : Nat) (v : Output) : List (List Output) :=
  fs.set id (fs.getD id [] ++ [v])

/-- `InferController::commit` (source lines 1574-1590): create the job and its
promise; if preprocessing fails, fulfil the promise with `Output()` and return
the future without queueing; otherwise push the job and notify the worker. -/
def Disp.commit (d : Disp) (ok : Bool) : Disp :=
  let id := d.fulfils.length
  if ok then { d with fulfils := d.fulfils ++ [[]], queue := d.queue ++ [id] }
  else { d with fulfils := d.fulfils ++ [[emptyOutput]] }

/-- The per-epoch job-creation loop of `commits` (source lines 1603-1610): for
each input, create the promise, run preprocess, and on failure `set_value` the
empty output.  Returns the new state and the ids of the created jobs. -/
def createJobs (d : Disp) (group : List Bool) : Disp × List Nat :=
  group.foldl
    (fun acc ok =>
      let id := acc.1.fulfils.length
      ({ acc.1 with fulfils := acc.1.fulfils ++ [if ok then [] else [emptyOutput]] },
        acc.2 ++ [id]))
    (d, [])

/-- `InferController::commits` (source lines 1592-1622): chunk the inputs into
epochs of `batch_size = min(inputs.size(), capacity)`, and per epoch create the
jobs (fulfilling failed ones with the empty output) and then enqueue ALL of the
epoch's jobs — the enqueue loop at source lines 1615-1617 does not skip jobs
whose preprocess failed.  (`bs = 0` only for an empty input list, where the C++
epoch count `(0 + bs - 1) / bs` divides by zero; modelled as a no-op.) -/
def Disp.commits (d : Disp) (oks : List Bool) (cap : Nat) : Disp :=
  let bs := min oks.length cap
  if bs = 0 then d
  else
    let nepoch := (oks.length + bs - 1) / bs
    (List.range nepoch).foldl
      (fun dd epoch =>
        let b := epoch * bs
        let e := min oks.length (b + bs)
        let created := createJobs dd ((oks.drop b).take (e - b))
        { created.1 with queue := created.1.queue ++ created.2 })
      d

/-- `InferController::get_jobs_and_wait` (source lines 1628-1643), evaluated at
wake-up: returns without fetching when `run_` is false; otherwise moves up to
`max_size` jobs from the queue front into the worker's batch.  The worker only
calls it with its previous batch already processed and cleared, and blocks while
the queue is empty. -/
def Disp.fetch (d : Disp) (max_size : Nat) : Disp :=
  if ¬ d.run then d
  else if d.queue.isEmpty then d
  else if ¬ d.fetched.isEmpty then d
  else { d with fetched := d.queue.take max_size, queue := d.queue.drop max_size }

/-- The promise-fulfilment loop at the end of one worker iteration (source lines
1842-1856): each fetched job's promise receives that job's decoded box list. -/
def fulfilAll : List (List Output) → List Nat → List Output → List (List Output)
  | fs, [], _ => fs
  | fs, id :: ids, outs => fulfilAll (setValue fs id (outs.headD emptyOutput)) ids (outs.drop 1)

/-- One whole worker iteration after a successful fetch: fulfil every fetched
job and clear the batch (`fetch_jobs.clear()`, source line 1857). -/
def Disp.finishBatch (d : Disp) (outs : List Output) : Disp :=
  { d with fulfils := fulfilAll d.fulfils d.fetched outs, fetched := [] }

/-- `InferController::stop` (source lines 1544-1563): clear `run_`, wake the
worker, fulfil every still-queued job with `Output()` while draining the queue,
then join and drop the worker thread if it exists. -/
def Disp.stop (d : Disp) : Disp :=
  { run := false
    queue := []
    fetched := d.fetched
    fulfils := d.queue.foldl (fun fs id => setValue fs id emptyOutput) d.fulfils
    workerThread := false
    joins := d.joins + (if d.workerThread then 1 else 0) }

/-! ## create_infer / startup (source lines 1671-1942) -/

/-- `NormType` (source lines 55-59). -/
inductive NormType : Type where
  | NoneT | MeanStd | AlphaBeta
deriving DecidableEq, Repr

/-- `ChannelType` (source lines 61-64). -/
inductive ChannelType : Type where
  | NoneC | Invert
deriving DecidableEq, Repr

/-- `Norm` (source lines 66-81), restricted to the fields the explored paths
set: `alpha`, `beta`, the norm type and the channel type (the `mean`/`std`
arrays are only used by `Norm::mean_std`, which this program never calls). -/
structure Norm : Type where
  alpha : ℚ
  beta : ℚ
  nt : NormType
  ct : ChannelType
deriving DecidableEq, Repr

/-- A default-constructed `Norm` (the value `normalize_` holds before `startup`
assigns it): type `None`, channel `None`. -/
def defaultNorm : Norm := ⟨0, 0, NormType.NoneT, ChannelType.NoneC⟩

/-- `Norm::alpha_beta` (source lines 124-132). -/
def Norm.alpha_beta (alpha beta : ℚ) (ct : ChannelType) : Norm :=
  ⟨alpha, beta, NormType.AlphaBeta, ct⟩

/-- `Norm::None()` (source lines 134-136): a default-constructed `Norm`. -/
def Norm.NoneNorm : Norm := defaultNorm

/-- Modelled from the spec: the `Type` kind enum is declared in
`simple_yolo.hpp`, which is not part of the provided sources.  Per the spec's
"two supported types" and the `.cu` file's own default branches (`type_name`,
source lines 1671-1677, and `startup`, lines 1766-1768), it has the supported
values `V5` and `X`, and — being a C++ scoped enum over `int` — admits further
values, collapsed here into `Other`. -/
inductive YType : Type where
  | V5 | X | Other
deriving DecidableEq, Repr

/-- The kind dispatch of `YoloInferImpl::startup` (source lines 1757-1768):
select the normalization for `V5`/`X`; for any other kind log an error
(`INFOE("Unsupport type %d", type)`) and leave `normalize_` at its
default-constructed value — the function does NOT return early. -/
def startupSelectNorm (t : YType) : Norm × List LogLevel :=
  match t with
  | YType.V5 => (Norm.alpha_beta (1/255) 0 ChannelType.Invert, [])
  | YType.X => (Norm.NoneNorm, [])
  | YType.Other => (defaultNorm, [LogLevel.Error])

/-- `YoloInferImpl::startup` (source lines 1757-1773) followed by
`ControllerImpl::startup` (lines 1565-1572): the caller blocks on the one-shot
promise that the worker (lines 1775-1786) resolves — `false` exactly when the
engine file fails to load (`load_infer` is the opaque model-loading
collaborator, summarised by `engineLoads`).  Returns the startup result, the
normalization the instance ends up with, and the logs emitted. -/
def YoloInferImpl_startup (t : YType) (engineLoads : Bool) :
    Bool × Norm × List LogLevel :=
  let sel := startupSelectNorm t
  (engineLoads, sel.1, sel.2 ++ if engineLoads then [] else [LogLevel.Error])

/-- `create_infer` (source lines 1936-1942): construct the instance, run
`startup`, and reset the handle to null when startup reports failure.  The
returned handle is summarised by the normalization configuration it carries. -/
def create_infer (t : YType) (engineLoads : Bool) : Option Norm :=
  let st := YoloInferImpl_startup t engineLoads
  if st.1 then some st.2.1 else none

/-! ## Theorems -/

/-- `to_gpu` never changes the byte footprint. -/
theorem to_gpu_bytes (t : Tensor) (c : Bool) : (t.to_gpu c).bytes = t.bytes := by
  unfold Tensor.to_gpu
  split <;> simp

/-- C6: for every tensor and every resize call, the data block is untouched;
the authoritative-location tag is reset to `Init` when the new byte footprint
strictly exceeds the old one, is kept when the new footprint is
equal-or-smaller, and (for a tensor whose tag is currently materialized) is
reset if and only if the footprint strictly grows. -/
theorem resize_head_invalidation (t : Tensor) (dims : List Nat) :
    (t.resize dims).data = t.data
  ∧ (Tensor.newBytes dims > t.bytes → (t.resize dims).head = DataHead.Init)
  ∧ (Tensor.newBytes dims ≤ t.bytes → (t.resize dims).head = t.head)
  ∧ (t.head ≠ DataHead.Init →
      ((t.resize dims).head = DataHead.Init ↔ Tensor.newBytes dims > t.bytes)) := by
  unfold Tensor.resize Tensor.adajust_memory_by_update_dims_or_type Tensor.newBytes
  by_cases h : Tensor.numelOf dims * element_size > t.bytes
  · simp [h]
  · simp [h]

/-- Witness for C6 at a concrete materialized tensor: growing 8 → 16 bytes
resets the tag, and shrinking 8 → 4 bytes keeps it. -/
theorem resize_head_invalidation_witness :
    Tensor.newBytes [4] > (Tensor.mk [2] [4] 8 DataHead.Host ⟨[], []⟩).bytes
  ∧ ((Tensor.mk [2] [4] 8 DataHead.Host ⟨[], []⟩).resize [4]).head = DataHead.Init
  ∧ Tensor.newBytes [1] ≤ (Tensor.mk [2] [4] 8 DataHead.Host ⟨[], []⟩).bytes
  ∧ ((Tensor.mk [2] [4] 8 DataHead.Host ⟨[], []⟩).resize [1]).head = DataHead.Host :=
  ⟨by decide,
   (resize_head_invalidation (Tensor.mk [2] [4] 8 DataHead.Host ⟨[], []⟩) [4]).2.1 (by decide),
   by decide,
   (resize_head_invalidation (Tensor.mk [2] [4] 8 DataHead.Host ⟨[], []⟩) [1]).2.2.1 (by decide)⟩

/-- C7 counterexample: on a tensor whose tag is still `Init`, an out-of-range
`copy_from_gpu` (byte offset 4 ≥ byte size 4) does log an error and copy
nothing, but it does NOT leave the observable state unchanged: the tag has been
materialized to `Device` (and the device buffer allocated) by the `to_gpu(false)`
call that precedes the bounds check (source lines 590-591). -/
theorem copy_from_gpu_out_of_range_changes_state :
    ((Tensor.mk [1] [4] 4 DataHead.Init ⟨[], []⟩).copy_from_gpu 1 [] 1).2 = [LogLevel.Error]
  ∧ ((Tensor.mk [1] [4] 4 DataHead.Init ⟨[], []⟩).copy_from_gpu 1 [] 1).1.head = DataHead.Device
  ∧ (Tensor.mk [1] [4] 4 DataHead.Init ⟨[], []⟩).head = DataHead.Init := by
  refine ⟨by decide, by decide, by decide⟩

/-- C7 as amended: an out-of-range `copy_from_gpu` — byte offset at least the
byte size, or byte count exceeding the remaining bytes — logs exactly one error,
is not fatal, and performs no copy: the resulting tensor is the input tensor
except that an `Init` tag has first been materialized to `Device`; in
particular a tensor whose tag is not `Init` is returned entirely unchanged. -/
theorem copy_from_gpu_out_of_range_noop (t : Tensor) (offset : Nat) (src : List Nat)
    (n : Nat)
    (hviol : offset * element_size ≥ t.bytes ∨
      n * element_size > t.bytes - offset * element_size) :
    (t.copy_from_gpu offset src n).1 = (if t.head = DataHead.Init then t.to_gpu false else t)
  ∧ (t.copy_from_gpu offset src n).2 = [LogLevel.Error]
  ∧ (t.head ≠ DataHead.Init → (t.copy_from_gpu offset src n).1 = t)
  ∧ ∀ lv ∈ (t.copy_from_gpu offset src n).2, logAborts lv = false := by
  have hbytes : (if t.head = DataHead.Init then t.to_gpu false else t).bytes = t.bytes := by
    split
    · exact to_gpu_bytes t false
    · rfl
  have hmain : (t.copy_from_gpu offset src n).1 =
        (if t.head = DataHead.Init then t.to_gpu false else t) ∧
      (t.copy_from_gpu offset src n).2 = [LogLevel.Error] := by
    unfold Tensor.copy_from_gpu
    rcases hviol with h | h
    · rw [if_pos]
      · exact ⟨rfl, rfl⟩
      · rw [hbytes]; exact h
    · by_cases h1 : offset * element_size ≥ (if t.head = DataHead.Init then t.to_gpu false else t).bytes
      · rw [if_pos h1]; exact ⟨rfl, rfl⟩
      · rw [if_neg h1, if_pos]
        · exact ⟨rfl, rfl⟩
        · rw [hbytes]; exact h
  refine ⟨hmain.1, hmain.2, ?_, ?_⟩
  · intro hne
    rw [hmain.1, if_neg hne]
  · intro lv hlv
    rw [hmain.2] at hlv
    simp at hlv
    subst hlv
    decide

/-- Witness for C7's amended statement: a materialized 4-byte tensor asked to
copy at byte offset 8 is returned unchanged with one non-fatal error log. -/
theorem copy_from_gpu_out_of_range_noop_witness :
    (2 * element_size ≥ (Tensor.mk [1] [4] 4 DataHead.Device ⟨[], [0, 0, 0, 0]⟩).bytes ∨
      1 * element_size > (Tensor.mk [1] [4] 4 DataHead.Device ⟨[], [0, 0, 0, 0]⟩).bytes -
        2 * element_size)
  ∧ ((Tensor.mk [1] [4] 4 DataHead.Device ⟨[], [0, 0, 0, 0]⟩).copy_from_gpu 2 [7] 1).1 =
      Tensor.mk [1] [4] 4 DataHead.Device ⟨[], [0, 0, 0, 0]⟩
  ∧ ((Tensor.mk [1] [4] 4 DataHead.Device ⟨[], [0, 0, 0, 0]⟩).copy_from_gpu 2 [7] 1).2 =
      [LogLevel.Error] :=
  ⟨Or.inl (by decide),
   (copy_from_gpu_out_of_range_noop (Tensor.mk [1] [4] 4 DataHead.Device ⟨[], [0, 0, 0, 0]⟩)
      2 [7] 1 (Or.inl (by decide))).2.2.1 (by decide),
   (copy_from_gpu_out_of_range_noop (Tensor.mk [1] [4] 4 DataHead.Device ⟨[], [0, 0, 0, 0]⟩)
      2 [7] 1 (Or.inl (by decide))).2.1⟩

/-- The decoded box `decode_kernel` writes for a surviving detection `p`. -/
def decodedOf (m : AffineM) (p : RawPred) : DecBox :=
  mkDecBox p m ((bestClass p).1 * p.obj) (bestClass p).2

/-- Characterization of the decode fold from an arbitrary intermediate state:
the counter counts every surviving detection, and boxes are written for the
survivors claiming indices below the cap. -/
theorem decode_foldl (c : ℚ) (m : AffineM) (mo : Nat) :
    ∀ (preds : List RawPred) (k : Nat) (acc : List DecBox),
      preds.foldl (decodeStep c m mo) (k, acc) =
        (k + (preds.filter (decodePasses c)).length,
          acc ++ ((preds.filter (decodePasses c)).take (mo - k)).map (decodedOf m)) := by
  intro preds
  induction preds with
  | nil => intro k acc; simp
  | cons p rest ih =>
      intro k acc
      by_cases h1 : p.obj < c
      · rw [List.foldl_cons, List.filter_cons_of_neg (by simp [decodePasses, h1])]
        show List.foldl (decodeStep c m mo) (decodeStep c m mo (k, acc) p) rest = _
        rw [show decodeStep c m mo (k, acc) p = (k, acc) by simp [decodeStep, if_pos h1]]
        exact ih k acc
      · by_cases h2 : (bestClass p).1 * p.obj < c
        · rw [List.foldl_cons, List.filter_cons_of_neg (by simp [decodePasses, h1, h2])]
          show List.foldl (decodeStep c m mo) (decodeStep c m mo (k, acc) p) rest = _
          rw [show decodeStep c m mo (k, acc) p = (k, acc) by
            simp [decodeStep, if_neg h1, if_pos h2]]
          exact ih k acc
        · rw [List.foldl_cons, List.filter_cons_of_pos (by simp [decodePasses, h1, h2])]
          show List.foldl (decodeStep c m mo) (decodeStep c m mo (k, acc) p) rest = _
          rw [show decodeStep c m mo (k, acc) p =
              (k + 1, if k < mo then acc ++ [decodedOf m p] else acc) by
            simp [decodeStep, if_neg h1, if_neg h2, decodedOf]]
          rw [ih (k + 1)]
          by_cases hk : k < mo
          · have htake : mo - k = (mo - (k + 1)) + 1 := by omega
            rw [if_pos hk, htake, List.take_succ_cons]
            simp [Nat.add_assoc, Nat.add_comm 1]
          · have htake1 : mo - k = 0 := by omega
            have htake2 : mo - (k + 1) = 0 := by omega
            rw [if_neg hk, htake1, htake2]
            simp [Nat.add_assoc, Nat.add_comm 1]

/-- C4: `decode_kernel` keeps a candidate exactly when its objectness is at
least the confidence threshold and its best class score (linear scan) times
objectness is also at least the threshold; the counter counts every survivor
and the written boxes are the first `max_objects` survivors; every written box
has confidence at least the threshold; and the spec's scenario — objectness 0.9
with top class score 0.4 against threshold 0.5 — is dropped. -/
theorem decode_kernel_confidence_filter (preds : List RawPred) (c : ℚ) (m : AffineM)
    (mo : Nat) :
    (decode_kernel preds c m mo).2 =
      ((preds.filter (decodePasses c)).take mo).map (decodedOf m)
  ∧ (decode_kernel preds c m mo).1 = (preds.filter (decodePasses c)).length
  ∧ (∀ b ∈ (decode_kernel preds c m mo).2, c ≤ b.conf)
  ∧ decode_kernel [⟨0, 0, 2, 2, 9/10, [2/5]⟩] (1/2) m 1024 = (0, []) := by
  have hfold := decode_foldl c m mo preds 0 []
  unfold decode_kernel
  rw [hfold]
  refine ⟨by simp, by simp, ?_, ?_⟩
  · intro b hb
    simp only [Nat.sub_zero, List.nil_append] at hb
    obtain ⟨p, hp, rfl⟩ := List.mem_map.1 hb
    have hp2 : p ∈ preds.filter (decodePasses c) := List.mem_of_mem_take hp
    have hpass : decodePasses c p = true := (List.mem_filter.1 hp2).2
    have h2 : c ≤ (bestClass p).1 * p.obj := by
      simp [decodePasses] at hpass
      exact hpass.2
    have hconf : (decodedOf m p).conf = (bestClass p).1 * p.obj := rfl
    rw [hconf]
    exact h2
  · norm_num [decode_kernel, decodeStep, bestClass, bestLoop]

/-- Witness for C4 at a concrete surviving detection (objectness 1, single class
score 1, threshold 0.5): its decoded box is in the output and its confidence is
at least the threshold. -/
theorem decode_kernel_confidence_filter_witness :
    decodedOf ⟨1, 0, 0, 0, 1, 0⟩ ⟨0, 0, 2, 2, 1, [1]⟩ ∈
      (decode_kernel [⟨0, 0, 2, 2, 1, [1]⟩] (1/2) ⟨1, 0, 0, 0, 1, 0⟩ 1024).2
  ∧ (1/2 : ℚ) ≤ (decodedOf ⟨1, 0, 0, 0, 1, 0⟩ ⟨0, 0, 2, 2, 1, [1]⟩).conf := by
  have hmem : decodedOf ⟨1, 0, 0, 0, 1, 0⟩ ⟨0, 0, 2, 2, 1, [1]⟩ ∈
      (decode_kernel [⟨0, 0, 2, 2, 1, [1]⟩] (1/2) ⟨1, 0, 0, 0, 1, 0⟩ 1024).2 := by
    norm_num [decode_kernel, decodeStep, decodedOf, bestClass, bestLoop]
  exact ⟨hmem,
    (decode_kernel_confidence_filter [⟨0, 0, 2, 2, 1, [1]⟩] (1/2) ⟨1, 0, 0, 0, 1, 0⟩
      1024).2.2.1 _ hmem⟩

/-- Lower-indexed of two equal-confidence class-0 boxes with IoU 3/5. -/
def tieLo : DecBox := ⟨0, 0, 4, 1, 7/10, 0, 1⟩

/-- Higher-indexed of two equal-confidence class-0 boxes with IoU 3/5. -/
def tieHi : DecBox := ⟨1, 0, 5, 1, 7/10, 0, 1⟩

/-- C2 counterexample: two class-0 boxes with EQUAL confidence 0.7 and IoU
3/5 > 0.5.  The claim's tie rule — "on equal confidence the lower-index box
keeps its flag and the higher-index box is suppressed" — predicts keep-flags
(1, 0); the kernel produces (0, 1): the skip
`if (pitem[4] == pcurrent[4] && i < position) continue;` (source line 873) makes
each thread ignore equal-confidence boxes of LOWER index, so the higher index
survives and the lower index is suppressed. -/
theorem nms_tie_break_counterexample :
    box_iou tieLo tieHi = 3/5
  ∧ tieLo.conf = tieHi.conf
  ∧ ((nms_kernel 2 [tieLo, tieHi] 1024 (1/2)).getD 0 zeroBox).keep = 0
  ∧ ((nms_kernel 2 [tieLo, tieHi] 1024 (1/2)).getD 1 zeroBox).keep = 1 := by
  refine ⟨?_, by norm_num [tieLo, tieHi], ?_, ?_⟩
  · norm_num [box_iou, tieLo, tieHi, max_def, min_def]
  · norm_num [nms_kernel, nmsSuppressed, box_iou, tieLo, tieHi, zeroBox,
      List.range_succ, max_def, min_def]
  · norm_num [nms_kernel, nmsSuppressed, box_iou, tieLo, tieHi, zeroBox,
      List.range_succ, max_def, min_def]

/-- Higher-confidence (0.9) class-0 box of the spec's distinct-confidence
scenario. -/
def nmsHi : DecBox := ⟨0, 0, 4, 1, 9/10, 0, 1⟩

/-- Lower-confidence (0.8) class-0 box of the spec's distinct-confidence
scenario; IoU with `nmsHi` is 3/5. -/
def nmsLo : DecBox := ⟨1, 0, 5, 1, 8/10, 0, 1⟩

/-- C2 as amended: an active box's keep-flag is cleared exactly when some other
active box of the same class has strictly higher confidence, or equal
confidence and a HIGHER index (ties are won by the higher index, not the lower
one as the claim stated), and the IoU of the two boxes exceeds the NMS
threshold; and in the spec's concrete scenario — two class-0 boxes with
confidences 0.9 and 0.8 and IoU 3/5 against threshold 0.5 — the 0.8 box is
suppressed and the 0.9 box kept. -/
theorem nms_keep_characterization (stored mo : Nat) (thr : ℚ) (boxes : List DecBox)
    (pos : Nat) (hpos : pos < min stored mo) (hlen : pos < boxes.length) :
    ((nms_kernel stored boxes mo thr).getD pos zeroBox).keep =
      (if nmsSuppressed boxes (min stored mo) thr pos then 0
        else (boxes.getD pos zeroBox).keep)
  ∧ (nmsSuppressed boxes (min stored mo) thr pos = true ↔
      ∃ i, i < min stored mo ∧ i ≠ pos ∧
        (boxes.getD i zeroBox).label = (boxes.getD pos zeroBox).label ∧
        ((boxes.getD pos zeroBox).conf < (boxes.getD i zeroBox).conf ∨
          ((boxes.getD i zeroBox).conf = (boxes.getD pos zeroBox).conf ∧ pos < i)) ∧
        thr < box_iou (boxes.getD pos zeroBox) (boxes.getD i zeroBox))
  ∧ ((nms_kernel 2 [nmsHi, nmsLo] 1024 (1/2)).getD 0 zeroBox).keep = 1
  ∧ ((nms_kernel 2 [nmsHi, nmsLo] 1024 (1/2)).getD 1 zeroBox).keep = 0 := by
  refine ⟨?_, ?_, ?_, ?_⟩
  · have hmap : (nms_kernel stored boxes mo thr).getD pos zeroBox =
        (let b := boxes.getD pos zeroBox
          if pos < min stored mo && nmsSuppressed boxes (min stored mo) thr pos then
            { b with keep := 0 }
          else b) := by
      unfold nms_kernel
      rw [List.getD_eq_getElem?_getD]
      simp [List.getElem?_map, List.getElem?_range, hlen]
    rw [hmap]
    by_cases hs : nmsSuppressed boxes (min stored mo) thr pos
    · simp [hs, hpos]
    · simp [hs, hpos]
  · unfold nmsSuppressed
    rw [List.any_eq_true]
    constructor
    · rintro ⟨i, hmem, hcond⟩
      have hi : i < min stored mo := List.mem_range.1 hmem
      simp only [Bool.and_eq_true, decide_eq_true_eq, Bool.not_and, Bool.or_eq_true,
        Bool.not_eq_true', decide_eq_false_iff_not] at hcond
      obtain ⟨⟨⟨⟨hne, hlab⟩, hge⟩, htie⟩, hiou⟩ := hcond
      refine ⟨i, hi, hne, hlab, ?_, hiou⟩
      rcases lt_or_eq_of_le hge with hlt | heq
      · exact Or.inl hlt
      · refine Or.inr ⟨heq.symm, ?_⟩
        rcases htie with h | h
        · exact absurd heq.symm h
        · omega
    · rintro ⟨i, hi, hne, hlab, hconf, hiou⟩
      refine ⟨i, List.mem_range.2 hi, ?_⟩
      simp only [Bool.and_eq_true, decide_eq_true_eq, Bool.not_and, Bool.or_eq_true,
        Bool.not_eq_true', decide_eq_false_iff_not]
      rcases hconf with hlt | ⟨heq, hgt⟩
      · exact ⟨⟨⟨⟨hne, hlab⟩, le_of_lt hlt⟩, Or.inl (ne_of_gt hlt)⟩, hiou⟩
      · exact ⟨⟨⟨⟨hne, hlab⟩, heq.symm.le⟩, Or.inr (by omega)⟩, hiou⟩
  · norm_num [nms_kernel, nmsSuppressed, box_iou, nmsHi, nmsLo, zeroBox,
      List.range_succ, max_def, min_def]
  · norm_num [nms_kernel, nmsSuppressed, box_iou, nmsHi, nmsLo, zeroBox,
      List.range_succ, max_def, min_def]

/-- Witness for C2's amended statement at the concrete scenario pair, position 1
(the 0.8 box): both hypotheses hold and the kernel's keep-flag for it follows
the characterization. -/
theorem nms_keep_characterization_witness :
    (1 < min 2 1024 ∧ 1 < ([nmsHi, nmsLo] : List DecBox).length)
  ∧ ((nms_kernel 2 [nmsHi, nmsLo] 1024 (1/2)).getD 1 zeroBox).keep =
      (if nmsSuppressed [nmsHi, nmsLo] (min 2 1024) (1/2) 1 then 0
        else (([nmsHi, nmsLo] : List DecBox).getD 1 zeroBox).keep) :=
  ⟨⟨by decide, by decide⟩,
    (nms_keep_characterization 2 1024 (1/2) [nmsHi, nmsLo] 1 (by decide) (by decide)).1⟩

/-- C9: the worker's per-image read-back emits at most `MAX_IMAGE_BBOX` (1024)
boxes, every emitted box comes from an entry whose keep-flag is 1, and any
stored count beyond the cap is clamped: the result is the same as with a stored
count of exactly 1024, the excess detections being silently dropped. -/
theorem worker_read_image_cap (stored : Nat) (entries : List DecBox) :
    (worker_read_image stored entries).length ≤ MAX_IMAGE_BBOX
  ∧ (∀ x ∈ worker_read_image stored entries,
      ∃ b ∈ entries, cppFloatToInt b.keep = 1 ∧ x = emitBox b)
  ∧ (MAX_IMAGE_BBOX ≤ stored →
      worker_read_image stored entries = worker_read_image MAX_IMAGE_BBOX entries) := by
  refine ⟨?_, ?_, ?_⟩
  · simp only [worker_read_image, List.length_map]
    apply le_trans (List.length_filter_le _ _)
    rw [List.length_take]
    omega
  · intro x hx
    simp only [worker_read_image] at hx
    obtain ⟨b, hb, rfl⟩ := List.mem_map.1 hx
    have hb2 := List.mem_filter.1 hb
    exact ⟨b, List.mem_of_mem_take hb2.1, by simpa using hb2.2, rfl⟩
  · intro h
    simp only [worker_read_image]
    rw [show min MAX_IMAGE_BBOX stored = min MAX_IMAGE_BBOX MAX_IMAGE_BBOX by omega]

/-- Witness for C9: with 2000 stored detections (one kept entry in memory), the
read-back equals the capped read-back, and the emitted box traces to a
keep-flag-1 entry. -/
theorem worker_read_image_cap_witness :
    MAX_IMAGE_BBOX ≤ 2000
  ∧ worker_read_image 2000 [DecBox.mk 0 0 1 1 (3/4) 0 1] =
      worker_read_image MAX_IMAGE_BBOX [DecBox.mk 0 0 1 1 (3/4) 0 1]
  ∧ ∃ b ∈ [DecBox.mk 0 0 1 1 (3/4) 0 1], cppFloatToInt b.keep = 1 ∧
      emitBox (DecBox.mk 0 0 1 1 (3/4) 0 1) = emitBox b :=
  ⟨by decide,
   (worker_read_image_cap 2000 [DecBox.mk 0 0 1 1 (3/4) 0 1]).2.2 (by decide),
   (worker_read_image_cap 2000 [DecBox.mk 0 0 1 1 (3/4) 0 1]).2.1
     (emitBox (DecBox.mk 0 0 1 1 (3/4) 0 1))
     (by
       simp only [worker_read_image, MAX_IMAGE_BBOX]
       norm_num [cppFloatToInt])⟩

/-- C3 counterexample: with a kind that is neither of the two supported types
but an engine file that loads, `create_infer` does NOT return null: `startup`
only logs `INFOE("Unsupport type %d", type)` (source line 1767) and falls
through to `ControllerImpl::startup`, so the handle is returned with the
default-constructed normalization. -/
theorem create_infer_unsupported_kind_not_null :
    create_infer YType.Other true = some defaultNorm
  ∧ create_infer YType.Other true ≠ none
  ∧ (startupSelectNorm YType.Other).2 = [LogLevel.Error] := by
  refine ⟨by decide, by decide, by decide⟩

/-- C3 as amended: `create_infer` returns null exactly when the model fails to
load; an unsupported kind is logged as an error but does not by itself make
`create_infer` return null — with a loading engine the handle is returned,
carrying the default-constructed normalization. -/
theorem create_infer_null_iff_load_failure (t : YType) (engineLoads : Bool) :
    (create_infer t engineLoads = none ↔ engineLoads = false)
  ∧ create_infer YType.Other true = some defaultNorm := by
  constructor
  · cases engineLoads <;> simp [create_infer, YoloInferImpl_startup]
  · decide

/-! ### MonopolyAllocator counting lemmas -/

/-- A freshly constructed pool has all `n` slots available. -/
theorem countAvail_replicate (n : Nat) : countAvail (List.replicate n true) = n := by
  induction n with
  | zero => rfl
  | succ k ih => simp [List.replicate_succ, countAvail, ih, Nat.add_comm]

/-- At most every slot is available. -/
theorem countAvail_le_length (l : List Bool) : countAvail l ≤ l.length := by
  induction l with
  | nil => simp [countAvail]
  | cons a rest ih =>
      simp only [countAvail, List.length_cons]
      split <;> omega

/-- `find_if` returns an index whose slot is available. -/
theorem findAvail_sound : ∀ (l : List Bool) (i : Nat), findAvail l = some i →
    l.getD i false = true := by
  intro l
  induction l with
  | nil => intro i h; cases h
  | cons a rest ih =>
      intro i h
      unfold findAvail at h
      by_cases ha : a
      · rw [if_pos ha] at h
        cases h
        simpa using ha
      · rw [if_neg ha] at h
        obtain ⟨j, hj, rfl⟩ := Option.map_eq_some'.1 h
        simpa using ih j hj

/-- Flipping an available slot to in-use decrements the available count by one. -/
theorem countAvail_set_false : ∀ (l : List Bool) (i : Nat), l.getD i false = true →
    countAvail (l.set i false) + 1 = countAvail l := by
  intro l
  induction l with
  | nil => intro i h; simp at h
  | cons a rest ih =>
      intro i h
      cases i with
      | zero =>
          rw [List.getD_cons_zero] at h
          subst h
          simp [List.set_cons_zero, countAvail, Nat.add_comm]
      | succ j =>
          rw [List.getD_cons_succ] at h
          rw [List.set_cons_succ]
          simp only [countAvail]
          have := ih j h
          omega

/-- Flipping an in-use slot back to available increments the available count. -/
theorem countAvail_set_true : ∀ (l : List Bool) (i : Nat), l.getD i true = false →
    countAvail (l.set i true) = countAvail l + 1 := by
  intro l
  induction l with
  | nil => intro i h; simp at h
  | cons a rest ih =>
      intro i h
      cases i with
      | zero =>
          rw [List.getD_cons_zero] at h
          subst h
          simp [List.set_cons_zero, countAvail, Nat.add_comm]
      | succ j =>
          rw [List.getD_cons_succ] at h
          rw [List.set_cons_succ]
          simp only [countAvail]
          have := ih j h
          omega

/-- The counting invariant of the pool: in every reachable state the slot table
still has its construction size, the capacity is unchanged, and the
`num_available_` counter agrees with the number of available slots. -/
theorem pool_inv {n : Nat} {p : Pool} (h : PoolReachable n p) :
    p.slots.length = n ∧ p.capacity = n ∧ p.num_available = countAvail p.slots := by
  induction h with
  | init => simp [mkMonopolyAllocator, countAvail_replicate]
  | @query p h ih =>
      obtain ⟨hlen, hcap, hcnt⟩ := ih
      by_cases hrun : ¬ p.run
      · have hq : p.query = (p, none) := by unfold Pool.query; rw [if_pos hrun]
        rw [hq]
        exact ⟨hlen, hcap, hcnt⟩
      · by_cases hav : p.num_available = 0
        · have hq : p.query = (p, none) := by unfold Pool.query; rw [if_neg hrun, if_pos hav]
          rw [hq]
          exact ⟨hlen, hcap, hcnt⟩
        · cases hfind : findAvail p.slots with
          | none =>
              have hq : p.query = (p, none) := by
                unfold Pool.query; rw [if_neg hrun, if_neg hav, hfind]
              rw [hq]
              exact ⟨hlen, hcap, hcnt⟩
          | some i =>
              have hq : p.query =
                  (Pool.mk (p.slots.set i false) (p.num_available - 1) p.capacity p.run,
                    some i) := by
                unfold Pool.query; rw [if_neg hrun, if_neg hav, hfind]
              rw [hq]
              have hslot := findAvail_sound p.slots i hfind
              have hdec := countAvail_set_false p.slots i hslot
              refine ⟨?_, hcap, ?_⟩
              · show (p.slots.set i false).length = n
                rw [List.length_set]
                exact hlen
              · show p.num_available - 1 = countAvail (p.slots.set i false)
                omega
  | @release p i h ih =>
      obtain ⟨hlen, hcap, hcnt⟩ := ih
      by_cases hav : p.slots.getD i true = true
      · have hr : p.release_one i = (p, false) := by
          unfold Pool.release_one; rw [if_pos hav]
        rw [hr]
        exact ⟨hlen, hcap, hcnt⟩
      · have hb : p.slots.getD i true = false := by simpa using hav
        have hr : p.release_one i =
            (Pool.mk (p.slots.set i true) (p.num_available + 1) p.capacity p.run, true) := by
          unfold Pool.release_one; rw [if_neg hav]
        rw [hr]
        have hinc := countAvail_set_true p.slots i hb
        refine ⟨?_, hcap, ?_⟩
        · show (p.slots.set i true).length = n
          rw [List.length_set]
          exact hlen
        · show p.num_available + 1 = countAvail (p.slots.set i true)
          omega
  | @shutdown p h ih => simpa [Pool.shutdown] using ih

/-- C5: in every reachable pool state, available counter plus in-use slots
equals the capacity fixed at construction, and the capacity never changes;
`query` never allocates a new slot (the slot table keeps its size), returns
null when the pool is shut down or when no slot is free after the wait, and on
success flips exactly one currently-available slot to in-use and decrements the
available counter. -/
theorem monopoly_allocator_invariant (n : Nat) (p : Pool) (h : PoolReachable n p) :
    p.num_available + p.inUse = p.capacity
  ∧ p.capacity = n
  ∧ p.query.1.slots.length = p.slots.length
  ∧ (p.run = false → p.query.2 = none)
  ∧ (p.num_available = 0 → p.query.2 = none)
  ∧ (∀ i, p.query.2 = some i →
      p.slots.getD i false = true
      ∧ p.query.1.slots = p.slots.set i false
      ∧ p.query.1.num_available + 1 = p.num_available) := by
  obtain ⟨hlen, hcap, hcnt⟩ := pool_inv h
  have hle := countAvail_le_length p.slots
  refine ⟨?_, hcap, ?_, ?_, ?_, ?_⟩
  · unfold Pool.inUse
    omega
  · by_cases hrun : ¬ p.run
    · rw [show p.query = (p, none) from by unfold Pool.query; rw [if_pos hrun]]
    · by_cases hav : p.num_available = 0
      · rw [show p.query = (p, none) from by unfold Pool.query; rw [if_neg hrun, if_pos hav]]
      · cases hfind : findAvail p.slots with
        | none =>
            rw [show p.query = (p, none) from by
              unfold Pool.query; rw [if_neg hrun, if_neg hav, hfind]]
        | some i =>
            rw [show p.query =
                (Pool.mk (p.slots.set i false) (p.num_available - 1) p.capacity p.run,
                  some i) from by unfold Pool.query; rw [if_neg hrun, if_neg hav, hfind]]
            exact List.length_set ..
  · intro hstop
    have hrun : ¬ p.run := by simp [hstop]
    rw [show p.query = (p, none) from by unfold Pool.query; rw [if_pos hrun]]
  · intro hav
    by_cases hrun : ¬ p.run
    · rw [show p.query = (p, none) from by unfold Pool.query; rw [if_pos hrun]]
    · rw [show p.query = (p, none) from by unfold Pool.query; rw [if_neg hrun, if_pos hav]]
  · intro i hsome
    by_cases hrun : ¬ p.run
    · rw [show p.query = (p, none) from by unfold Pool.query; rw [if_pos hrun]] at hsome
      cases hsome
    · by_cases hav : p.num_available = 0
      · rw [show p.query = (p, none) from by
          unfold Pool.query; rw [if_neg hrun, if_pos hav]] at hsome
        cases hsome
      · cases hfind : findAvail p.slots with
        | none =>
            rw [show p.query = (p, none) from by
              unfold Pool.query; rw [if_neg hrun, if_neg hav, hfind]] at hsome
            cases hsome
        | some j =>
            have hq : p.query =
                (Pool.mk (p.slots.set j false) (p.num_available - 1) p.capacity p.run,
                  some j) := by unfold Pool.query; rw [if_neg hrun, if_neg hav, hfind]
            rw [hq] at hsome
            cases hsome
            refine ⟨findAvail_sound p.slots i hfind, by rw [hq], ?_⟩
            rw [hq]
            show p.num_available - 1 + 1 = p.num_available
            omega

/-- Witness for C5 at a freshly constructed pool of capacity 2 after one
successful `query`: the counting identity holds and the successful query
decremented the counter. -/
theorem monopoly_allocator_invariant_witness :
    ((mkMonopolyAllocator 2).query.1.num_available + (mkMonopolyAllocator 2).query.1.inUse =
      (mkMonopolyAllocator 2).query.1.capacity)
  ∧ (mkMonopolyAllocator 2).query.1.query.1.slots.length =
      (mkMonopolyAllocator 2).query.1.slots.length :=
  ⟨(monopoly_allocator_invariant 2 (mkMonopolyAllocator 2).query.1
      (PoolReachable.query (PoolReachable.init 2))).1,
   (monopoly_allocator_invariant 2 (mkMonopolyAllocator 2).query.1
      (PoolReachable.query (PoolReachable.init 2))).2.2.1⟩

/-- C10: releasing a slot that is already available is a complete no-op — the
state is unchanged and no waiter is notified — and (because in every reachable
state the counter equals the number of available slots, which is bounded by the
fixed slot-table size) no sequence of releases can push the available counter
beyond the capacity. -/
theorem release_one_available_noop (n : Nat) (p : Pool) (i : Nat)
    (h : PoolReachable n p) :
    (p.slots.getD i true = true → p.release_one i = (p, false))
  ∧ (p.release_one i).1.num_available ≤ (p.release_one i).1.capacity := by
  constructor
  · intro hav
    unfold Pool.release_one
    rw [if_pos hav]
  · obtain ⟨hlen, hcap, hcnt⟩ := pool_inv (PoolReachable.release i h)
    have := countAvail_le_length (p.release_one i).1.slots
    omega

/-- Witness for C10: in a fresh pool of capacity 1, releasing the (available)
slot 0 changes nothing, notifies nobody, and the counter stays within the
capacity. -/
theorem release_one_available_noop_witness :
    (mkMonopolyAllocator 1).slots.getD 0 true = true
  ∧ (mkMonopolyAllocator 1).release_one 0 = (mkMonopolyAllocator 1, false)
  ∧ ((mkMonopolyAllocator 1).release_one 0).1.num_available ≤
      ((mkMonopolyAllocator 1).release_one 0).1.capacity :=
  ⟨by decide,
   (release_one_available_noop 1 (mkMonopolyAllocator 1) 0 (PoolReachable.init 1)).1
     (by decide),
   (release_one_available_noop 1 (mkMonopolyAllocator 1) 0 (PoolReachable.init 1)).2⟩

/-! ### Dispatcher promise-history lemmas -/

/-- `set_value` on one job does not touch another job's history. -/
theorem setValue_getD_ne (fs : List (List Output)) (id j : Nat) (v : Output)
    (h : j ≠ id) : (setValue fs id v).getD j [] = fs.getD j [] := by
  unfold setValue
  rw [List.getD_eq_getElem?_getD, List.getElem?_set_ne (Ne.symm h)]
  exact (List.getD_eq_getElem?_getD fs j []).symm

/-- `set_value` on an existing job appends exactly one value to its history. -/
theorem setValue_getD_eq (fs : List (List Output)) (id : Nat) (v : Output)
    (h : id < fs.length) : (setValue fs id v).getD id [] = fs.getD id [] ++ [v] := by
  unfold setValue
  rw [List.getD_eq_getElem?_getD, List.getElem?_set_eq_of_lt _ h]
  rfl

/-- The drain loop of `stop` leaves the histories of jobs not in the queue
untouched. -/
theorem drain_getD_not_mem : ∀ (q : List Nat) (fs : List (List Output)) (id : Nat),
    id ∉ q →
    (q.foldl (fun fs j => setValue fs j emptyOutput) fs).getD id [] = fs.getD id [] := by
  intro q
  induction q with
  | nil => intro fs id _; rfl
  | cons j rest ih =>
      intro fs id hmem
      rw [List.foldl_cons, ih _ _ (fun hc => hmem (List.mem_cons_of_mem j hc)),
        setValue_getD_ne _ _ _ _
          (fun hc => hmem (by rw [hc]; exact List.mem_cons_self j rest))]

/-- The drain loop of `stop` appends exactly one empty output to the history of
each queued job (queue entries are distinct creation indices). -/
theorem drain_getD_mem : ∀ (q : List Nat) (fs : List (List Output)) (id : Nat),
    id ∈ q → q.Nodup → (∀ j ∈ q, j < fs.length) →
    (q.foldl (fun fs j => setValue fs j emptyOutput) fs).getD id [] =
      fs.getD id [] ++ [emptyOutput] := by
  intro q
  induction q with
  | nil => intro fs id h; cases h
  | cons j rest ih =>
      intro fs id hmem hnd hlt
      rw [List.foldl_cons]
      rcases List.mem_cons.1 hmem with rfl | hrest
      · have hnotin : id ∉ rest := (List.nodup_cons.1 hnd).1
        rw [drain_getD_not_mem rest _ id hnotin,
          setValue_getD_eq _ _ _ (hlt id (List.mem_cons_self id rest))]
      · have hne : id ≠ j := by
          rintro rfl
          exact (List.nodup_cons.1 hnd).1 hrest
        rw [ih _ _ hrest (List.nodup_cons.1 hnd).2
            (fun k hk => by
              rw [setValue, List.length_set]
              exact hlt k (List.mem_cons_of_mem j hk)),
          setValue_getD_ne _ _ _ _ hne]

/-- C8: `stop` clears the running flag, drains the queue by fulfilling every
still-queued job's promise with exactly one extra empty output, and is
idempotent: a second `stop` is a no-op (same state, in particular no second
join of the worker thread), and a job that was still pending at shutdown ends
with exactly one (empty) result after one or two `stop` calls. -/
theorem stop_drains_and_idempotent (d : Disp) (hnd : d.queue.Nodup)
    (hlt : ∀ id ∈ d.queue, id < d.fulfils.length) :
    d.stop.run = false
  ∧ d.stop.queue = []
  ∧ (∀ id ∈ d.queue, d.stop.fulfils.getD id [] = d.fulfils.getD id [] ++ [emptyOutput])
  ∧ d.stop.stop = d.stop
  ∧ (∀ id ∈ d.queue, d.fulfils.getD id [] = [] →
      d.stop.fulfils.getD id [] = [emptyOutput]
      ∧ d.stop.stop.fulfils.getD id [] = [emptyOutput])
  ∧ d.stop.stop.joins = d.stop.joins := by
  have hidem : d.stop.stop = d.stop := by
    simp [Disp.stop]
  have hdrain : ∀ id ∈ d.queue,
      d.stop.fulfils.getD id [] = d.fulfils.getD id [] ++ [emptyOutput] := by
    intro id hid
    show (d.queue.foldl (fun fs j => setValue fs j emptyOutput) d.fulfils).getD id [] = _
    exact drain_getD_mem d.queue d.fulfils id hid hnd hlt
  refine ⟨rfl, rfl, hdrain, hidem, ?_, by rw [hidem]⟩
  intro id hid hpending
  have h1 : d.stop.fulfils.getD id [] = [emptyOutput] := by
    rw [hdrain id hid, hpending]
    rfl
  exact ⟨h1, by rw [hidem]; exact h1⟩

/-- Witness for C8 on a dispatcher with one pending queued job (a successful
`commit`): `stop` resolves it to exactly one empty output, twice-stopping
changes nothing, and no double join happens. -/
theorem stop_drains_and_idempotent_witness :
    ((initDisp.commit true).queue.Nodup
      ∧ ∀ id ∈ (initDisp.commit true).queue, id < (initDisp.commit true).fulfils.length)
  ∧ (initDisp.commit true).stop.fulfils.getD 0 [] = [emptyOutput]
  ∧ (initDisp.commit true).stop.stop = (initDisp.commit true).stop
  ∧ (initDisp.commit true).stop.stop.joins = (initDisp.commit true).stop.joins :=
  ⟨⟨by decide, by decide⟩,
   ((stop_drains_and_idempotent (initDisp.commit true) (by decide) (by decide)).2.2.2.2.1
      0 (by decide) (by decide)).1,
   (stop_drains_and_idempotent (initDisp.commit true) (by decide) (by decide)).2.2.2.1,
   (stop_drains_and_idempotent (initDisp.commit true) (by decide) (by decide)).2.2.2.2.2⟩

/-- C1: the promise-per-job invariant FAILS on `commits`.  `commit` behaves as
claimed: a preprocess-failed submission is fulfilled once with the empty output
and never queued.  But `commits`' enqueue loop (source lines 1615-1617) pushes
every job of the epoch — including those whose preprocess failed and whose
promise was therefore already fulfilled at source line 1607 — so the worker
fetches such a job and fulfils its promise a second time (source line 1855;
it even dereferences the job's null `mono_tensor` first, source line 1823).
Concretely: one `commits` submission whose preprocess fails, one worker fetch,
one batch completion leaves TWO `set_value` calls on the job's promise. -/
theorem commits_preprocess_fail_double_fulfil :
    (initDisp.commit false).queue = []
  ∧ (initDisp.commit false).fulfils.getD 0 [] = [emptyOutput]
  ∧ (0 : Nat) ∈ (initDisp.commits [false] 4).queue
  ∧ (initDisp.commits [false] 4).fulfils.getD 0 [] = [emptyOutput]
  ∧ (((initDisp.commits [false] 4).fetch 16).finishBatch [emptyOutput]).fulfils.getD 0 [] =
      [emptyOutput, emptyOutput] := by
  refine ⟨by decide, by decide, by decide, by decide, by decide⟩

end SimpleYolo
